import Mathlib

/-!
Verification of the command-line entry-point resolver in `pkg/cli/cli.go`
of the `oc` repository: basename dispatch (`CommandFor`), plugin-style
re-rooting of the default command tree, the shared-default normalization
pass (`changeSharedFlagDefaults`), the warnings-as-errors post-run check
(`NewOcCommand`), and the external-plugin fallthrough
(`NewDefaultOcCommand`).

Command trees are modelled as a mutual inductive (`Cmd`/`Cmds`) mirroring
cobra's `Command` in the fields the resolver reads and writes.  Behavior
of external collaborators that is not part of `pkg/cli/cli.go` (cobra's
`Find`, pflag's `AddFlagSet`, kubectl's plugin handler, the three
independently built special trees) is modelled from the specification;
each such definition carries a doc comment saying so.
-/

namespace OcCli

/-! ## Go string primitives

Character-list implementations of the `strings` package functions the
source uses (`HasPrefix`, `TrimPrefix`, `Split`, `Replace`, `Contains`,
`Join`).  All are structurally recursive so concrete invocations reduce
in the kernel. -/

/-- Does `pat` occur as a contiguous substring of the character list? -/
def listContainsSub (pat : List Char) : List Char → Bool
  | [] => pat.isEmpty
  | c :: rest => pat.isPrefixOf (c :: rest) || listContainsSub pat rest

/-- Go `strings.Contains(s, pat)`. -/
def strContainsSub (s pat : String) : Bool :=
  listContainsSub pat.toList s.toList

/-- Go `strings.HasPrefix(s, pre)`. -/
def strStartsWith (s pre : String) : Bool :=
  pre.toList.isPrefixOf s.toList

/-- Go `strings.TrimPrefix(s, pre)`. -/
def strTrimStart (s pre : String) : String :=
  if strStartsWith s pre then ⟨s.toList.drop pre.toList.length⟩ else s

/-- Split a character list around every occurrence of `sep`
    (Go `strings.Split` for a one-character separator). -/
def splitChars (sep : Char) : List Char → List (List Char)
  | [] => [[]]
  | c :: rest =>
    let r := splitChars sep rest
    if c = sep then [] :: r
    else
      match r with
      | [] => [[c]]
      | h :: t => (c :: h) :: t

/-- Go `strings.Split(s, "-")`. -/
def strSplitDash (s : String) : List String :=
  (splitChars '-' s.toList).map (fun cs => ⟨cs⟩)

/-- Go `strings.Replace(s, "_", "-", -1)`: map every underscore to a hyphen. -/
def strReplaceUnderscore (s : String) : String :=
  ⟨s.toList.map (fun c => if c = '_' then '-' else c)⟩

/-- Go `strings.Join(ws, sep)`. -/
def joinWith (sep : String) : List String → String
  | [] => ""
  | [w] => w
  | w :: ws => w ++ sep ++ joinWith sep ws

/-! ## Data model -/

/-- A pflag flag descriptor, in the fields `cli.go` reads and writes:
    name, help text (`Usage`), default value (`DefValue`), current value
    (`Value`), and the changed-by-user bit (`Changed`). -/
structure Flag where
  name : String
  usage : String
  defValue : String
  value : String
  changed : Bool
deriving DecidableEq, Repr

/-- The two persistent hooks `NewOcCommand` installs on the oc root:
    `PersistentPreRunE` installs the warning handler, and
    `PersistentPostRunE` performs the warnings-as-errors check. -/
inductive Hook where
  | setWarningHandler : Hook
  | warningsAsErrorsCheck : Hook
deriving DecidableEq, Repr

/-- A command's opaque run behavior: the oc root runs `runHelp`; leaf
    behaviors are external collaborators identified here only by a tag. -/
inductive RunB where
  | runHelp : RunB
  | leafRun (tag : String) : RunB
deriving DecidableEq, Repr

mutual
/-- A cobra `Command` in the fields the resolver uses: `Use`, `Short`,
    `Long`, `Example`, `Run`, the two persistent hooks, the local flag set
    (`Flags()`), the persistent flag set (`PersistentFlags()`), and the
    ordered child commands.  `Use` doubles as the command's name, which is
    what tree resolution matches path segments against. -/
inductive Cmd where
  | mk (use short long examp : String)
      (run : Option RunB)
      (prerun postrun : Option Hook)
      (flags pflags : List Flag)
      (subs : Cmds) : Cmd
/-- An ordered list of child commands (a separate inductive so that all
    tree recursion is structural). -/
inductive Cmds where
  | nil : Cmds
  | cons (c : Cmd) (cs : Cmds) : Cmds
end

def Cmd.use : Cmd → String
  | .mk u _ _ _ _ _ _ _ _ _ => u

def Cmd.short : Cmd → String
  | .mk _ s _ _ _ _ _ _ _ _ => s

def Cmd.long : Cmd → String
  | .mk _ _ l _ _ _ _ _ _ _ => l

def Cmd.examp : Cmd → String
  | .mk _ _ _ e _ _ _ _ _ _ => e

def Cmd.run : Cmd → Option RunB
  | .mk _ _ _ _ r _ _ _ _ _ => r

def Cmd.prerun : Cmd → Option Hook
  | .mk _ _ _ _ _ p _ _ _ _ => p

def Cmd.postrun : Cmd → Option Hook
  | .mk _ _ _ _ _ _ p _ _ _ => p

def Cmd.flags : Cmd → List Flag
  | .mk _ _ _ _ _ _ _ fs _ _ => fs

def Cmd.pflags : Cmd → List Flag
  | .mk _ _ _ _ _ _ _ _ pfs _ => pfs

def Cmd.subs : Cmd → Cmds
  | .mk _ _ _ _ _ _ _ _ _ cs => cs

def Cmds.toList : Cmds → List Cmd
  | .nil => []
  | .cons c cs => c :: cs.toList

def Cmds.find? (p : Cmd → Bool) : Cmds → Option Cmd
  | .nil => none
  | .cons c cs => if p c then some c else cs.find? p

def Cmds.isEmpty : Cmds → Bool
  | .nil => true
  | .cons _ _ => false

def Cmds.append : Cmds → Cmds → Cmds
  | .nil, ds => ds
  | .cons c cs, ds => .cons c (cs.append ds)

/-! ## Shared default normalizer (`changeSharedFlagDefaults`, cli.go 306-321) -/

/-- The marker phrase `changeSharedFlagDefaults` requires in the flag's
    usage text, guarding against coincidental name collisions. -/
def validateMarkerText : String :=
  "Must be one of: strict (or true), warn, ignore (or false)"

/-- Does this usage text carry the upstream validation-flag marker? -/
def containsValidateMarker (u : String) : Bool :=
  strContainsSub u validateMarkerText

/-- The mutation cli.go 316-318 applies to the found flag: set default and
    current value to "ignore" and clear the changed-by-user bit. -/
def setIgnore (fl : Flag) : Flag :=
  { fl with defValue := "ignore", value := "ignore", changed := false }

/-- `currCmd.Flags().Lookup("validate")` followed by the guarded mutation
    (cli.go 315-319) on a local flag set: find the flag named "validate"
    (pflag flag sets key flags by name, so at most the first match is
    relevant) and, when its usage carries the marker, apply `setIgnore`. -/
def fixValidateFlags : List Flag → List Flag
  | [] => []
  | fl :: rest =>
    if fl.name == "validate" then
      (if containsValidateMarker fl.usage then setIgnore fl else fl) :: rest
    else
      fl :: fixValidateFlags rest

/-- The pointwise reading of the guarded mutation: a flag is rewritten by
    `setIgnore` exactly when it is named "validate" and carries the
    marker; under pflag's unique-flag-name invariant this is what
    `fixValidateFlags` does to each element of a local flag set. -/
def fixValidateOne (fl : Flag) : Flag :=
  if fl.name = "validate" ∧ containsValidateMarker fl.usage = true then
    setIgnore fl
  else fl

mutual
/-- `changeSharedFlagDefaults` (cli.go 306-321): visit every node of the
    assembled tree once (the source uses a worklist; visiting each node is
    order-independent) and apply the validate-flag fix to its local flag
    set only. -/
def changeSharedFlagDefaults : Cmd → Cmd
  | .mk u s l e r pre post fs pfs subs =>
    .mk u s l e r pre post (fixValidateFlags fs) pfs
      (changeSharedFlagDefaultsList subs)
/-- The traversal of `currCmd.Commands()` appended to the worklist. -/
def changeSharedFlagDefaultsList : Cmds → Cmds
  | .nil => .nil
  | .cons c cs =>
    .cons (changeSharedFlagDefaults c) (changeSharedFlagDefaultsList cs)
end

mutual
/-- Every node of a command tree (the root and, recursively, all
    descendants), used to state tree-wide properties. -/
def allNodes : Cmd → List Cmd
  | .mk u s l e r pre post fs pfs subs =>
    .mk u s l e r pre post fs pfs subs :: allNodesList subs
def allNodesList : Cmds → List Cmd
  | .nil => []
  | .cons c cs => allNodes c ++ allNodesList cs
end

/-! ## Warnings-as-errors post-run check (`NewOcCommand`, cli.go 151-164) -/

/-- The `PersistentPostRunE` closure of the oc root (cli.go 151-164): when
    the warnings-as-errors flag is set, an accumulated warning count of 0
    yields no error, 1 yields "1 warning received", and any other count
    yields "<count> warnings received".  `none` models a nil error. -/
def persistentPostRunError (warningsAsErrors : Bool) (warningCount : Nat) :
    Option String :=
  if warningsAsErrors then
    match warningCount with
    | 0 => none
    | 1 => some (Nat.repr 1 ++ " warning received")
    | n => some (Nat.repr n ++ " warnings received")
  else none

/-- Modelled from the spec: the process exit code produced from the final
    post-run result (an error from `PersistentPostRunE` makes the run exit
    nonzero, code 1; the error-to-exit translation lives outside
    `pkg/cli/cli.go`). -/
def exitCodeForPostRun : Option String → Nat
  | none => 0
  | some _ => 1

/-! ## Tree resolution (cobra `Command.Find`), modelled from the spec -/

/-- Modelled from the spec: cobra strips flag tokens before matching path
    segments; leading arguments before the first non-flag token are global
    flags, not verbs.  A token is a flag when it begins with "-". -/
def stripFlags (args : List String) : List String :=
  args.filter (fun a => !(strStartsWith a "-"))

/-- Modelled from the spec: the resolution walk of cobra's `Find`.  From
    the current node, match the next path segment against child names by
    exact string equality only; greedily consume matching segments and
    stop at the first segment with no exact match, ignoring any unmatched
    trailing segments.  The walk also accumulates the persistent flag sets
    of the strict ancestors of the node finally reached (the node's
    inherited flags). -/
def walkAcc (c : Cmd) (inherited : List Flag) : List String → (Cmd × List Flag)
  | [] => (c, inherited)
  | s :: rest =>
    match c.subs.find? (fun ch => ch.use == s) with
    | some ch => walkAcc ch (inherited ++ c.pflags) rest
    | none => (c, inherited)

/-- Modelled from the spec: cobra's `Command.Find` on a root command.
    With no non-flag argument the root itself is found.  Otherwise the
    walk starts by matching the first segment against the root's children;
    when that first segment has no exact match, `Find` reports an unknown
    command for a root that has subcommands (`none` here), and only for a
    childless root does it fall back to the root itself. -/
def cobraFind (root : Cmd) (args : List String) : Option (Cmd × List Flag) :=
  match stripFlags args with
  | [] => some (root, [])
  | s :: rest =>
    match root.subs.find? (fun ch => ch.use == s) with
    | some ch => some (walkAcc ch root.pflags rest)
    | none => if root.subs.isEmpty then some (root, []) else none

/-- Did `cmd.Find(cmdPathPieces)` fail (cli.go 112)? -/
def cobraFindFails (root : Cmd) (args : List String) : Bool :=
  match cobraFind root args with
  | some _ => false
  | none => true

/-! ## Plugin re-rooter (`CommandFor`, cli.go 365-395) -/

/-- The path segments for a plugin-style basename (cli.go 366-372): trim
    the "kubectl-" plugin-name prefix, split the remainder on "-", and map
    every underscore within each segment to a hyphen. -/
def pluginArgs (basename : String) : List String :=
  (strSplitDash (strTrimStart basename "kubectl-")).map strReplaceUnderscore

/-- Modelled from the spec: `cmd.Find(args)` at cli.go 374 as the spec's
    resolution algorithm for plugin path segments — walk the default tree
    from the root; if at least the first segment matches a child, the
    deepest node reached is the resolution target; when no segment
    matches, there is no result.  (Path segments come from splitting on
    "-", so none is a flag token; the flag stripping of the general
    matcher is vacuous here and omitted.) -/
def resolveTarget (root : Cmd) (args : List String) : Option (Cmd × List Flag) :=
  match args with
  | [] => none
  | s :: rest =>
    match root.subs.find? (fun ch => ch.use == s) with
    | some ch => some (walkAcc ch root.pflags rest)
    | none => none

/-- The plugin-prefix resolution of cli.go 365-374: when the basename
    begins with "kubectl-", run the tree walk on its path segments and
    return the target node together with its inherited flags. -/
def resolvePluginPath (root : Cmd) (basename : String) :
    Option (Cmd × List Flag) :=
  if strStartsWith basename "kubectl-" then
    resolveTarget root (pluginArgs basename)
  else none

/-- The target's full flag set as copied by cli.go 388 (`targetCmd.Flags()`),
    which the spec describes as the target's own local and inherited
    flags: its local set, its own persistent set, and the persistent sets
    of its ancestors. -/
def fullFlags (target : Cmd) (inherited : List Flag) : List Flag :=
  target.flags ++ target.pflags ++ inherited

/-- Is a flag with this name declared in the set? -/
def flagSetHasName (fs : List Flag) (n : String) : Bool :=
  fs.any (fun g => g.name == n)

/-- Modelled from the spec: pflag `FlagSet.AddFlagSet` as the spec's union
    of flag sets in which the later-declared value wins on a name
    collision. -/
def addFlagSet (fs newSet : List Flag) : List Flag :=
  fs.filter (fun fl => !(flagSetHasName newSet fl.name)) ++ newSet

/-- The synthesized root of cli.go 378-393: copy the target's `Use`,
    `Short`, `Long`, `Example` and `Run`; build its local flag set by
    adding the original root's flags and then the target's full flags;
    copy the target's persistent flags; attach the target's existing
    children by reference.  No persistent hooks are installed. -/
def synthesizeRoot (rootCmd target : Cmd) (inherited : List Flag) : Cmd :=
  .mk target.use target.short target.long target.examp target.run
    none none
    (addFlagSet (addFlagSet [] rootCmd.flags) (fullFlags target inherited))
    (addFlagSet [] target.pflags)
    target.subs

/-- The whole re-rooting block of cli.go 365-395: on a plugin-style
    basename whose first segment resolves, replace the tree by the
    synthesized root; otherwise leave the tree alone (`none`). -/
def reRootForBasename (root : Cmd) (basename : String) : Option Cmd :=
  (resolvePluginPath root basename).map
    (fun tc => synthesizeRoot root tc.1 tc.2)

/-! ## The default oc tree (`NewOcCommand`, cli.go 138-291) -/

/-- The oc root's `Long` text (cli.go 64-69). -/
def cliLong : String :=
  "OpenShift Client\n\nThis client helps you develop, build, deploy, and run your applications on any\nOpenShift or Kubernetes cluster. It also includes the administrative\ncommands for managing a cluster under the 'adm' subcommand."

/-- The warnings-as-errors persistent flag (cli.go 168). -/
def warningsAsErrorsFlag : Flag :=
  { name := "warnings-as-errors"
    usage := "Treat warnings received from the server as errors and exit with a non-zero exit code"
    defValue := "false", value := "false", changed := false }

/-- The additions `NewOcCommand` makes after the normalization pass
    (cli.go 279-286): flags exposed onto the root's local set by
    `ExposeFlags`, and the late-added subcommands (`ex`, `plugin`,
    `version`, `options`). -/
def Cmd.withExtra (c : Cmd) (exposed : List Flag) (late : Cmds) : Cmd :=
  .mk c.use c.short c.long c.examp c.run c.prerun c.postrun
    (c.flags ++ exposed) c.pflags (c.subs.append late)

/-- `NewOcCommand` (cli.go 138-291) in the structure the resolver needs:
    the root carries `Use` "oc", the help run behavior, the two persistent
    hooks, and the warnings-as-errors flag at the head of its persistent
    set.  The grouped subcommands, the remaining persistent flags, the
    exposed login flags and the late-added subcommands are built by
    external collaborators and are parameters here.  The normalization
    pass runs over the grouped tree (cli.go 277) before the late
    additions. -/
def newOcCommand (exposed rootPFlags : List Flag) (groupSubs lateSubs : Cmds) :
    Cmd :=
  (changeSharedFlagDefaults
    (.mk "oc" "Command line tools for managing applications" cliLong ""
      (some .runHelp) (some .setWarningHandler) (some .warningsAsErrorsCheck)
      [] (warningsAsErrorsFlag :: rootPFlags) groupSubs)).withExtra
    exposed lateSubs

/-- Modelled from the spec: the tree built by kubectl's
    `NewDefaultKubectlCommand` for the exact basename "kubectl" — an
    independently built tree unrelated to the oc tree. -/
def kubectlCmd : Cmd :=
  .mk "kubectl" "kubectl controls the Kubernetes cluster manager" "" ""
    none none none [] [] .nil

/-- Modelled from the spec: the tree built by `deployer.NewCommandDeployer`
    for the exact basename "openshift-deploy". -/
def deployerCmd (basename : String) : Cmd :=
  .mk basename "Run the OpenShift deployer" "" "" none none none [] [] .nil

/-- Modelled from the spec: the tree built by `recycle.NewCommandRecycle`
    for the exact basename "openshift-recycle". -/
def recycleCmd (basename : String) : Cmd :=
  .mk basename "Run the OpenShift recycler" "" "" none none none [] [] .nil

/-- `CommandFor` (cli.go 342-402): dispatch on the invocation basename.
    The three fixed names select their independently built trees; any
    other basename selects the default oc tree, re-rooted when the
    plugin-prefix resolution of cli.go 365-395 succeeds.  (On this build
    `runtime.GOOS` is "linux", so the Windows case-fold and ".exe"-strip
    of cli.go 348-351 is a no-op; the final usage-function attachment of
    cli.go 398-400 concerns help rendering only and is outside the model.) -/
def commandFor (exposed rootPFlags : List Flag) (groupSubs lateSubs : Cmds)
    (basename : String) : Cmd :=
  if basename = "kubectl" then kubectlCmd
  else if basename = "openshift-deploy" then deployerCmd basename
  else if basename = "openshift-recycle" then recycleCmd basename
  else
    (reRootForBasename (newOcCommand exposed rootPFlags groupSubs lateSubs)
        basename).getD
      (newOcCommand exposed rootPFlags groupSubs lateSubs)

/-! ## External plugin fallthrough (`NewDefaultOcCommand`, cli.go 100-136) -/

/-- cobra's shell-completion sentinel command (`cobra.ShellCompRequestCmd`). -/
def shellCompRequestCmd : String := "__complete"

/-- cobra's second sentinel (`cobra.ShellCompNoDescRequestCmd`). -/
def shellCompNoDescRequestCmd : String := "__completeNoDesc"

/-- The `cmdName` loop of cli.go 116-122: the first argument that does not
    begin with "-", or the empty string when every argument is a flag. -/
def firstNonFlagArg (args : List String) : String :=
  match args.find? (fun a => !(strStartsWith a "-")) with
  | some a => a
  | none => ""

/-- The terminal outcome of `NewDefaultOcCommand`: return the built-in
    tree, replace the process with an external plugin, or print an error
    and exit. -/
inductive DispatchOutcome where
  | tree : DispatchOutcome
  | execPlugin (path : String) (args : List String) : DispatchOutcome
  | exitWithError (code : Nat) (msg : String) : DispatchOutcome
deriving DecidableEq, Repr

/-- Modelled from the spec: one candidate lookup of the plugin handler.
    For a hyphen-joined name, each configured filename prefix is
    prepended, in declared order, and the PATH scan (`findExec`) is asked
    for each resulting candidate. -/
def lookupCandidate (findExec : String → Option String)
    (prefixes : List String) (nameJoined : String) : Option String :=
  prefixes.findSome? (fun p => findExec (p ++ "-" ++ nameJoined))

/-- Modelled from the spec: try contiguous argument prefixes of length
    `len`, `len - 1`, ..., 1, longest first, returning the matched path
    and how many argument words the match consumed. -/
def searchPluginAux (findExec : String → Option String)
    (prefixes : List String) (words : List String) : Nat → Option (String × Nat)
  | 0 => none
  | Nat.succ k =>
    match lookupCandidate findExec prefixes (joinWith "-" (words.take (Nat.succ k))) with
    | some path => some (path, Nat.succ k)
    | none => searchPluginAux findExec prefixes words k

/-- Modelled from the spec: the full plugin search over all candidate
    lengths and prefixes. -/
def searchPlugin (findExec : String → Option String)
    (prefixes : List String) (words : List String) : Option (String × Nat) :=
  searchPluginAux findExec prefixes words words.length

/-- Modelled from the spec: the "command not found"-style message written
    to the error stream when no external plugin matches. -/
def pluginNotFoundMsg (words : List String) : String :=
  "unable to find a plugin executable for command " ++ joinWith " " words

/-- Modelled from the spec: kubectl's `HandlePluginCommand` as invoked at
    cli.go 128, composed with the caller's error handling (cli.go 128-131):
    search PATH over the leading non-flag words; on a match, replace the
    process with the matched executable and the unconsumed argument
    suffix; on no match across all candidate lengths and prefixes, write
    the not-found message and exit with status 1. -/
def handlePluginCommand (findExec : String → Option String)
    (prefixes : List String) (cmdArgs : List String) : DispatchOutcome :=
  let words := cmdArgs.takeWhile (fun a => !(strStartsWith a "-"))
  match searchPlugin findExec prefixes words with
  | some (path, k) => .execPlugin path (cmdArgs.drop k)
  | none => .exitWithError 1 (pluginNotFoundMsg words)

/-- `NewDefaultOcCommand` (cli.go 100-136) as a dispatch decision.
    `osArgs` is `os.Args[1:]`; `findExec` models the PATH scan of the
    plugin handler and `prefixes` the configured valid filename prefixes.
    With no arguments the tree is returned at once.  Otherwise, only when
    the tree's own matcher fails and the first non-flag argument is
    neither "help" nor a shell-completion sentinel does the external
    plugin search run. -/
def newDefaultOcCommandDispatch (tree : Cmd)
    (findExec : String → Option String) (prefixes : List String)
    (osArgs : List String) : DispatchOutcome :=
  match osArgs with
  | [] => .tree
  | _ :: _ =>
    if cobraFindFails tree osArgs then
      if firstNonFlagArg osArgs == "help"
          || firstNonFlagArg osArgs == shellCompRequestCmd
          || firstNonFlagArg osArgs == shellCompNoDescRequestCmd then
        .tree
      else
        handlePluginCommand findExec prefixes osArgs
    else .tree

/-! ## Sample data

A small concrete command tree (a root with two children and one
grandchild, carrying local and persistent flags) used to instantiate the
theorems below on closed inputs. -/

def fRootToken : Flag :=
  ⟨"token", "Bearer token for authentication", "", "", false⟩

def fRootLog : Flag := ⟨"loglevel", "Log level", "0", "0", false⟩

def fRootNamespace : Flag := ⟨"namespace", "Namespace scope", "", "", false⟩

def fGetOutput : Flag := ⟨"output", "Output format", "", "", false⟩

def fGetToken : Flag := ⟨"token", "Token used by get", "tt", "tt", false⟩

def fSetLocal : Flag := ⟨"local", "Set locally only", "false", "false", false⟩

def fSetContainers : Flag := ⟨"containers", "Containers to select", "*", "*", false⟩

def fValidate : Flag :=
  ⟨"validate", "Validate the input. Must be one of: strict (or true), warn, ignore (or false).",
    "true", "true", true⟩

def sampleEnv : Cmd :=
  .mk "env" "Update environment" "" "" (some (.leafRun "set env"))
    none none [] [] .nil

def sampleSet : Cmd :=
  .mk "set" "Set things" "set long help" "set examples" (some (.leafRun "set"))
    none none [fSetLocal] [fSetContainers] (.cons sampleEnv .nil)

def sampleGet : Cmd :=
  .mk "get" "Get things" "get long help" "get examples" (some (.leafRun "get"))
    none none [fGetOutput, fGetToken, fValidate] [] .nil

def sampleSubs : Cmds := .cons sampleGet (.cons sampleSet .nil)

def sampleRoot : Cmd :=
  .mk "root" "sample root" "" "" none none none
    [fRootToken, fRootLog] [fRootNamespace] sampleSubs

/-! ## Helper lemmas -/

theorem Cmds.find?_eq_none (p : Cmd → Bool) :
    (cs : Cmds) → (∀ ch ∈ cs.toList, p ch = false) → Cmds.find? p cs = none
  | .nil, _ => rfl
  | .cons c cs, h => by
    have hc : p c = false := h c (by simp [Cmds.toList])
    have ht : ∀ ch ∈ cs.toList, p ch = false := fun ch hch =>
      h ch (by simp [Cmds.toList, hch])
    simp only [Cmds.find?, hc, Bool.false_eq_true, if_false]
    exact Cmds.find?_eq_none p cs ht

theorem addFlagSet_nil (fs : List Flag) : addFlagSet [] fs = fs := by
  simp [addFlagSet]

theorem flagSetHasName_iff (fs : List Flag) (n : String) :
    flagSetHasName fs n = true ↔ ∃ g ∈ fs, g.name = n := by
  simp [flagSetHasName, List.any_eq_true, beq_iff_eq]

theorem synthesizeRoot_pflags (rootCmd target : Cmd) (inherited : List Flag) :
    (synthesizeRoot rootCmd target inherited).pflags = target.pflags := by
  simp only [synthesizeRoot, Cmd.pflags, addFlagSet_nil]

theorem synthesizeRoot_flags (rootCmd target : Cmd) (inherited : List Flag) :
    (synthesizeRoot rootCmd target inherited).flags =
      addFlagSet rootCmd.flags (fullFlags target inherited) := rfl

theorem mem_addFlagSet (a b : List Flag) (fl : Flag) :
    fl ∈ addFlagSet a b ↔
      (fl ∈ b ∨ (fl ∈ a ∧ flagSetHasName b fl.name = false)) := by
  unfold addFlagSet
  rw [List.mem_append, List.mem_filter]
  cases h : flagSetHasName b fl.name with
  | false =>
    simp [h]
    tauto
  | true => simp [h]

theorem hasName_addFlagSet (a b : List Flag) (n : String) :
    flagSetHasName (addFlagSet a b) n = true ↔
      (flagSetHasName a n = true ∨ flagSetHasName b n = true) := by
  rw [flagSetHasName_iff, flagSetHasName_iff, flagSetHasName_iff]
  constructor
  · rintro ⟨g, hg, hn⟩
    rcases (mem_addFlagSet a b g).mp hg with hb | ⟨ha, _⟩
    · exact Or.inr ⟨g, hb, hn⟩
    · exact Or.inl ⟨g, ha, hn⟩
  · rintro (⟨g, hg, hn⟩ | ⟨g, hg, hn⟩)
    · by_cases htf : flagSetHasName b n = true
      · rcases (flagSetHasName_iff b n).mp htf with ⟨g2, hg2, hn2⟩
        exact ⟨g2, (mem_addFlagSet a b g2).mpr (Or.inl hg2), hn2⟩
      · have hf : flagSetHasName b g.name = false := by
          rw [hn]
          revert htf
          cases flagSetHasName b n <;> simp
        exact ⟨g, (mem_addFlagSet a b g).mpr (Or.inr ⟨hg, hf⟩), hn⟩
    · exact ⟨g, (mem_addFlagSet a b g).mpr (Or.inl hg), hn⟩

theorem cobraFindFails_stripFlags_ne (root : Cmd) (args : List String)
    (h : cobraFindFails root args = true) : stripFlags args ≠ [] := by
  intro hnil
  unfold cobraFindFails cobraFind at h
  rw [hnil] at h
  simp at h

theorem handlePluginCommand_ne_tree (findExec : String → Option String)
    (prefixes : List String) (cmdArgs : List String) :
    handlePluginCommand findExec prefixes cmdArgs ≠ .tree := by
  unfold handlePluginCommand
  cases h : searchPlugin findExec prefixes
      (cmdArgs.takeWhile (fun a => !(strStartsWith a "-"))) with
  | none => simp [h]
  | some pk => simp [h]

theorem changeSharedFlagDefaults_use (c : Cmd) :
    (changeSharedFlagDefaults c).use = c.use := by
  cases c
  rfl

theorem changeSharedFlagDefaults_prerun (c : Cmd) :
    (changeSharedFlagDefaults c).prerun = c.prerun := by
  cases c
  rfl

theorem changeSharedFlagDefaults_postrun (c : Cmd) :
    (changeSharedFlagDefaults c).postrun = c.postrun := by
  cases c
  rfl

theorem withExtra_use (c : Cmd) (e : List Flag) (l : Cmds) :
    (c.withExtra e l).use = c.use := rfl

theorem withExtra_prerun (c : Cmd) (e : List Flag) (l : Cmds) :
    (c.withExtra e l).prerun = c.prerun := rfl

theorem withExtra_postrun (c : Cmd) (e : List Flag) (l : Cmds) :
    (c.withExtra e l).postrun = c.postrun := rfl

theorem newOcCommand_use (exposed rootPFlags : List Flag)
    (groupSubs lateSubs : Cmds) :
    (newOcCommand exposed rootPFlags groupSubs lateSubs).use = "oc" := by
  unfold newOcCommand
  rw [withExtra_use, changeSharedFlagDefaults_use]
  rfl

theorem newOcCommand_prerun (exposed rootPFlags : List Flag)
    (groupSubs lateSubs : Cmds) :
    (newOcCommand exposed rootPFlags groupSubs lateSubs).prerun =
      some Hook.setWarningHandler := by
  unfold newOcCommand
  rw [withExtra_prerun, changeSharedFlagDefaults_prerun]
  rfl

theorem newOcCommand_postrun (exposed rootPFlags : List Flag)
    (groupSubs lateSubs : Cmds) :
    (newOcCommand exposed rootPFlags groupSubs lateSubs).postrun =
      some Hook.warningsAsErrorsCheck := by
  unfold newOcCommand
  rw [withExtra_postrun, changeSharedFlagDefaults_postrun]
  rfl

/-- C5: with the warnings-as-errors flag enabled, an accumulated count of
0 produces no final error (exit 0), a count of 1 produces the final error
message "1 warning received" (exit 1), and a count of 2 produces
"2 warnings received" (exit 1); with the flag disabled no count produces a
final error. -/
theorem warnings_as_errors_postrun_spec :
    persistentPostRunError true 0 = none ∧
    exitCodeForPostRun (persistentPostRunError true 0) = 0 ∧
    persistentPostRunError true 1 = some "1 warning received" ∧
    exitCodeForPostRun (persistentPostRunError true 1) = 1 ∧
    persistentPostRunError true 2 = some "2 warnings received" ∧
    exitCodeForPostRun (persistentPostRunError true 2) = 1 ∧
    (∀ warningCount : Nat, persistentPostRunError false warningCount = none) := by
  refine ⟨rfl, rfl, by decide, by decide, by decide, by decide, ?_⟩
  intro n
  simp [persistentPostRunError]

/-- C9: within plugin-basename path segments, underscores are mapped to
hyphens before tree resolution, so a segment written "foo_bar" resolves to
exactly the same target as the literal segment "foo-bar" in the same
position, and the basename "kubectl-foo_bar" yields the path segment
"foo-bar". -/
theorem underscore_hyphen_equiv (root : Cmd) (pre suf : List String) :
    cobraFind root ((pre ++ ["foo_bar"] ++ suf).map strReplaceUnderscore) =
      cobraFind root ((pre ++ ["foo-bar"] ++ suf).map strReplaceUnderscore) ∧
    strReplaceUnderscore "foo_bar" = "foo-bar" ∧
    pluginArgs "kubectl-foo_bar" = ["foo-bar"] := by
  refine ⟨?_, by decide, by decide⟩
  have h : strReplaceUnderscore "foo_bar" = strReplaceUnderscore "foo-bar" := by
    decide
  simp only [List.map_append, List.map_cons, List.map_nil, h]

/-- C7: the external-plugin search runs exactly when at least one non-flag
argument is present, the built-in tree's matcher fails on the argument
vector, and the first non-flag argument is neither "help" nor one of the
two shell-completion sentinels; in every other case the built-in tree is
returned unchanged. -/
theorem plugin_search_trigger_iff (tree : Cmd)
    (findExec : String → Option String) (prefixes : List String)
    (osArgs : List String) :
    newDefaultOcCommandDispatch tree findExec prefixes osArgs ≠ .tree ↔
      (stripFlags osArgs ≠ [] ∧
       cobraFindFails tree osArgs = true ∧
       firstNonFlagArg osArgs ≠ "help" ∧
       firstNonFlagArg osArgs ≠ shellCompRequestCmd ∧
       firstNonFlagArg osArgs ≠ shellCompNoDescRequestCmd) := by
  cases osArgs with
  | nil =>
    constructor
    · intro h
      exact absurd rfl h
    · rintro ⟨h1, _⟩
      exact absurd rfl h1
  | cons a l =>
    by_cases hf : cobraFindFails tree (a :: l) = true
    · by_cases hh : firstNonFlagArg (a :: l) = "help"
      · constructor
        · intro h
          exact absurd (by simp [newDefaultOcCommandDispatch, hf, hh]) h
        · rintro ⟨_, _, h3, _⟩
          exact absurd hh h3
      · by_cases hc : firstNonFlagArg (a :: l) = shellCompRequestCmd
        · constructor
          · intro h
            exact absurd (by simp [newDefaultOcCommandDispatch, hf, hc]) h
          · rintro ⟨_, _, _, h4, _⟩
            exact absurd hc h4
        · by_cases hd : firstNonFlagArg (a :: l) = shellCompNoDescRequestCmd
          · constructor
            · intro h
              exact absurd (by simp [newDefaultOcCommandDispatch, hf, hd]) h
            · rintro ⟨_, _, _, _, h5⟩
              exact absurd hd h5
          · constructor
            · intro _
              exact ⟨cobraFindFails_stripFlags_ne tree (a :: l) hf, hf, hh, hc, hd⟩
            · intro _
              have : newDefaultOcCommandDispatch tree findExec prefixes (a :: l) =
                  handlePluginCommand findExec prefixes (a :: l) := by
                simp [newDefaultOcCommandDispatch, hf, hh, hc, hd]
              rw [this]
              exact handlePluginCommand_ne_tree findExec prefixes (a :: l)
    · have hf' : cobraFindFails tree (a :: l) = false := by
        revert hf
        cases cobraFindFails tree (a :: l) <;> simp
      constructor
      · intro h
        exact absurd (by simp [newDefaultOcCommandDispatch, hf']) h
      · rintro ⟨_, h2, _⟩
        rw [hf'] at h2
        exact absurd h2 (by simp)

/-- C6: when the external-plugin search is triggered (arguments present,
the matcher fails, the first non-flag argument is not a help or completion
sentinel) and no matching executable exists across all candidate lengths
and prefixes, the program writes a command-not-found-style message and
exits with status exactly 1, taking no further action. -/
theorem plugin_not_found_exit_spec (tree : Cmd)
    (findExec : String → Option String) (prefixes : List String)
    (osArgs : List String)
    (hargs : osArgs ≠ [])
    (hfail : cobraFindFails tree osArgs = true)
    (hhelp : firstNonFlagArg osArgs ≠ "help")
    (hcomp : firstNonFlagArg osArgs ≠ shellCompRequestCmd)
    (hcompnd : firstNonFlagArg osArgs ≠ shellCompNoDescRequestCmd)
    (hnone : searchPlugin findExec prefixes
        (osArgs.takeWhile (fun a => !(strStartsWith a "-"))) = none) :
    newDefaultOcCommandDispatch tree findExec prefixes osArgs =
      .exitWithError 1
        (pluginNotFoundMsg (osArgs.takeWhile (fun a => !(strStartsWith a "-")))) := by
  cases osArgs with
  | nil => exact absurd rfl hargs
  | cons a l =>
    have hstep : newDefaultOcCommandDispatch tree findExec prefixes (a :: l) =
        handlePluginCommand findExec prefixes (a :: l) := by
      simp [newDefaultOcCommandDispatch, hfail, hhelp, hcomp, hcompnd]
    rw [hstep]
    simp only [handlePluginCommand, hnone]

/-- C2: for plugin-style basenames, the re-rooting walk matches each path
segment against child names by exact string equality only (unless some
child's name is exactly the segment, the walk stops there, ignoring all
trailing segments), greedily consumes matching segments, and whenever at
least the first segment matches a child of the root, resolution succeeds
with the deepest node of the walk as target. -/
theorem plugin_reroot_walk_spec :
    (∀ (c : Cmd) (inh : List Flag) (s : String) (rest : List String),
        (∀ ch ∈ c.subs.toList, ch.use ≠ s) →
        walkAcc c inh (s :: rest) = (c, inh)) ∧
    (∀ (c ch : Cmd) (inh : List Flag) (s : String) (rest : List String),
        Cmds.find? (fun c0 => c0.use == s) c.subs = some ch →
        walkAcc c inh (s :: rest) = walkAcc ch (inh ++ c.pflags) rest) ∧
    (∀ (root ch : Cmd) (basename s : String) (rest : List String),
        strStartsWith basename "kubectl-" = true →
        pluginArgs basename = s :: rest →
        Cmds.find? (fun c0 => c0.use == s) root.subs = some ch →
        resolvePluginPath root basename =
          some (walkAcc ch root.pflags rest)) := by
  refine ⟨?_, ?_, ?_⟩
  · intro c inh s rest h
    have hn : Cmds.find? (fun c0 => c0.use == s) c.subs = none := by
      apply Cmds.find?_eq_none
      intro ch hch
      exact beq_eq_false_iff_ne.mpr (h ch hch)
    simp [walkAcc, hn]
  · intro c ch inh s rest h
    simp [walkAcc, h]
  · intro root ch basename s rest hpre hargs hfind
    simp only [resolvePluginPath, hpre, if_true, resolveTarget, hargs, hfind]

/-- Witness for C2 on the sample tree: an unmatched first segment stops
the walk at the root; a matching segment is consumed greedily; the
basename "kubectl-set-env" resolves through the child "set". -/
theorem plugin_reroot_walk_witness :
    walkAcc sampleRoot [] ["frobnicate", "env"] = (sampleRoot, []) ∧
    walkAcc sampleRoot [] ["set", "env"] =
      walkAcc sampleSet ([] ++ sampleRoot.pflags) ["env"] ∧
    resolvePluginPath sampleRoot "kubectl-set-env" =
      some (walkAcc sampleSet sampleRoot.pflags ["env"]) := by
  refine ⟨?_, ?_, ?_⟩
  · exact plugin_reroot_walk_spec.1 sampleRoot [] "frobnicate" ["env"] (by decide)
  · exact plugin_reroot_walk_spec.2.1 sampleRoot sampleSet [] "set" ["env"] rfl
  · exact plugin_reroot_walk_spec.2.2 sampleRoot sampleSet "kubectl-set-env"
      "set" ["env"] (by decide) (by decide) rfl

/-- C3: on every successful re-rooting, the synthesized root's local flag
set is exactly the union of the original root's flags and the target's
local-plus-inherited flags — every target-side flag is present verbatim
(the later-declared value wins any name collision), a root flag survives
exactly when no target-side flag shares its name, and no other flag (in
particular no sibling subcommand's flag) appears. -/
theorem reroot_flag_union_spec (root : Cmd) (basename : String)
    (target : Cmd) (inherited : List Flag)
    (h : resolvePluginPath root basename = some (target, inherited)) :
    reRootForBasename root basename =
      some (synthesizeRoot root target inherited) ∧
    (∀ fl : Flag,
        fl ∈ (synthesizeRoot root target inherited).flags ↔
          (fl ∈ fullFlags target inherited ∨
           (fl ∈ root.flags ∧
            flagSetHasName (fullFlags target inherited) fl.name = false))) ∧
    (∀ n : String,
        flagSetHasName (synthesizeRoot root target inherited).flags n = true ↔
          (flagSetHasName root.flags n = true ∨
           flagSetHasName (fullFlags target inherited) n = true)) := by
  refine ⟨?_, ?_, ?_⟩
  · simp only [reRootForBasename, h]
    rfl
  · intro fl
    rw [synthesizeRoot_flags]
    exact mem_addFlagSet root.flags (fullFlags target inherited) fl
  · intro n
    rw [synthesizeRoot_flags]
    exact hasName_addFlagSet root.flags (fullFlags target inherited) n

/-- Witness for C3: re-rooting the sample tree at "kubectl-get", checked
for the colliding flag name "token" (the target's copy wins) . -/
theorem reroot_flag_union_witness :
    reRootForBasename sampleRoot "kubectl-get" =
      some (synthesizeRoot sampleRoot sampleGet [fRootNamespace]) ∧
    (fGetToken ∈ (synthesizeRoot sampleRoot sampleGet [fRootNamespace]).flags ↔
      (fGetToken ∈ fullFlags sampleGet [fRootNamespace] ∨
       (fGetToken ∈ sampleRoot.flags ∧
        flagSetHasName (fullFlags sampleGet [fRootNamespace])
          fGetToken.name = false))) ∧
    (flagSetHasName (synthesizeRoot sampleRoot sampleGet [fRootNamespace]).flags
        "token" = true ↔
      (flagSetHasName sampleRoot.flags "token" = true ∨
       flagSetHasName (fullFlags sampleGet [fRootNamespace]) "token" = true)) := by
  have h := reroot_flag_union_spec sampleRoot "kubectl-get" sampleGet
    [fRootNamespace] (by rfl)
  exact ⟨h.1, h.2.1 fGetToken, h.2.2 "token"⟩

/-- C8: on every successful re-rooting, the target's existing children are
attached to the synthesized root by reference (the very same child list,
unmodified), and every descendant reachable through a child of the target
is reached identically through the synthesized root. -/
theorem reroot_children_preserved_spec (root : Cmd) (basename : String)
    (target : Cmd) (inherited : List Flag)
    (h : resolvePluginPath root basename = some (target, inherited)) :
    reRootForBasename root basename =
      some (synthesizeRoot root target inherited) ∧
    (synthesizeRoot root target inherited).subs = target.subs ∧
    (∀ (s : String) (rest : List String) (ch : Cmd) (inh0 : List Flag),
        Cmds.find? (fun c0 => c0.use == s) target.subs = some ch →
        walkAcc (synthesizeRoot root target inherited) inh0 (s :: rest) =
          walkAcc target inh0 (s :: rest)) := by
  refine ⟨?_, rfl, ?_⟩
  · simp only [reRootForBasename, h]
    rfl
  · intro s rest ch inh0 hfind
    have hsubs : (synthesizeRoot root target inherited).subs = target.subs := rfl
    simp only [walkAcc, hsubs, hfind, synthesizeRoot_pflags]

/-- Witness for C8: re-rooting the sample tree at "kubectl-set" keeps the
child list of "set", and the grandchild "env" is reached identically. -/
theorem reroot_children_preserved_witness :
    (synthesizeRoot sampleRoot sampleSet [fRootNamespace]).subs =
      sampleSet.subs ∧
    walkAcc (synthesizeRoot sampleRoot sampleSet [fRootNamespace]) [] ["env"] =
      walkAcc sampleSet [] ["env"] := by
  have h := reroot_children_preserved_spec sampleRoot "kubectl-set" sampleSet
    [fRootNamespace] (by rfl)
  exact ⟨h.2.1, h.2.2 "env" [] sampleEnv [] rfl⟩

/-- C1: `CommandFor` selects, for the three fixed special basenames, three
mutually distinct independently-built trees, none of which is the default
oc tree; every other basename yields the default oc tree unless
plugin-prefix re-rooting succeeds, in which case the re-rooted subtree is
returned instead. -/
theorem commandFor_basename_dispatch (exposed rootPFlags : List Flag)
    (groupSubs lateSubs : Cmds) :
    commandFor exposed rootPFlags groupSubs lateSubs "kubectl" = kubectlCmd ∧
    commandFor exposed rootPFlags groupSubs lateSubs "openshift-deploy" =
      deployerCmd "openshift-deploy" ∧
    commandFor exposed rootPFlags groupSubs lateSubs "openshift-recycle" =
      recycleCmd "openshift-recycle" ∧
    kubectlCmd ≠ deployerCmd "openshift-deploy" ∧
    kubectlCmd ≠ recycleCmd "openshift-recycle" ∧
    deployerCmd "openshift-deploy" ≠ recycleCmd "openshift-recycle" ∧
    kubectlCmd ≠ newOcCommand exposed rootPFlags groupSubs lateSubs ∧
    deployerCmd "openshift-deploy" ≠
      newOcCommand exposed rootPFlags groupSubs lateSubs ∧
    recycleCmd "openshift-recycle" ≠
      newOcCommand exposed rootPFlags groupSubs lateSubs ∧
    (∀ b : String, b ≠ "kubectl" → b ≠ "openshift-deploy" →
        b ≠ "openshift-recycle" →
        commandFor exposed rootPFlags groupSubs lateSubs b =
          (reRootForBasename
              (newOcCommand exposed rootPFlags groupSubs lateSubs) b).getD
            (newOcCommand exposed rootPFlags groupSubs lateSubs)) := by
  refine ⟨?_, ?_, ?_, ?_, ?_, ?_, ?_, ?_, ?_, ?_⟩
  · unfold commandFor
    rw [if_pos rfl]
  · unfold commandFor
    rw [if_neg (by decide), if_pos rfl]
  · unfold commandFor
    rw [if_neg (by decide), if_neg (by decide), if_pos rfl]
  · intro h
    exact absurd (congrArg Cmd.use h) (by decide)
  · intro h
    exact absurd (congrArg Cmd.use h) (by decide)
  · intro h
    exact absurd (congrArg Cmd.use h) (by decide)
  · intro h
    have h2 := congrArg Cmd.use h
    rw [newOcCommand_use] at h2
    exact absurd h2 (by decide)
  · intro h
    have h2 := congrArg Cmd.use h
    rw [newOcCommand_use] at h2
    exact absurd h2 (by decide)
  · intro h
    have h2 := congrArg Cmd.use h
    rw [newOcCommand_use] at h2
    exact absurd h2 (by decide)
  · intro b hb1 hb2 hb3
    unfold commandFor
    rw [if_neg hb1, if_neg hb2, if_neg hb3]

/-- Witness for C1 at the concrete basename "oc" with empty external
inputs: the non-special branch returns the (possibly re-rooted) default
tree. -/
theorem commandFor_basename_dispatch_witness :
    commandFor [] [] .nil .nil "oc" =
      (reRootForBasename (newOcCommand [] [] .nil .nil) "oc").getD
        (newOcCommand [] [] .nil .nil) :=
  (commandFor_basename_dispatch [] [] .nil .nil).2.2.2.2.2.2.2.2.2 "oc"
    (by decide) (by decide) (by decide)

/-- C10: the root synthesized for a plugin-style basename copies exactly
Use, Short, Long, Example and Run from the target node and carries no
persistent pre-run or post-run hook of its own, while the original oc root
carries the warning-handler installation pre-run hook and the
warnings-as-errors post-run check; the synthesized root therefore has
neither. -/
theorem reroot_hooks_absent_spec (exposed rootPFlags : List Flag)
    (groupSubs lateSubs : Cmds) (basename : String)
    (target : Cmd) (inherited : List Flag)
    (h : resolvePluginPath (newOcCommand exposed rootPFlags groupSubs lateSubs)
        basename = some (target, inherited)) :
    reRootForBasename (newOcCommand exposed rootPFlags groupSubs lateSubs)
        basename =
      some (synthesizeRoot (newOcCommand exposed rootPFlags groupSubs lateSubs)
        target inherited) ∧
    (synthesizeRoot (newOcCommand exposed rootPFlags groupSubs lateSubs)
        target inherited).use = target.use ∧
    (synthesizeRoot (newOcCommand exposed rootPFlags groupSubs lateSubs)
        target inherited).short = target.short ∧
    (synthesizeRoot (newOcCommand exposed rootPFlags groupSubs lateSubs)
        target inherited).long = target.long ∧
    (synthesizeRoot (newOcCommand exposed rootPFlags groupSubs lateSubs)
        target inherited).examp = target.examp ∧
    (synthesizeRoot (newOcCommand exposed rootPFlags groupSubs lateSubs)
        target inherited).run = target.run ∧
    (synthesizeRoot (newOcCommand exposed rootPFlags groupSubs lateSubs)
        target inherited).prerun = none ∧
    (synthesizeRoot (newOcCommand exposed rootPFlags groupSubs lateSubs)
        target inherited).postrun = none ∧
    (newOcCommand exposed rootPFlags groupSubs lateSubs).prerun =
      some Hook.setWarningHandler ∧
    (newOcCommand exposed rootPFlags groupSubs lateSubs).postrun =
      some Hook.warningsAsErrorsCheck := by
  refine ⟨?_, rfl, rfl, rfl, rfl, rfl, rfl, rfl, ?_, ?_⟩
  · simp only [reRootForBasename, h]
    rfl
  · exact newOcCommand_prerun exposed rootPFlags groupSubs lateSubs
  · exact newOcCommand_postrun exposed rootPFlags groupSubs lateSubs

/-- Witness for C10: re-rooting the oc tree built over the sample
subcommands at "kubectl-set". -/
theorem reroot_hooks_absent_witness :
    (synthesizeRoot (newOcCommand [] [] sampleSubs .nil) sampleSet
        [warningsAsErrorsFlag]).prerun = none ∧
    (synthesizeRoot (newOcCommand [] [] sampleSubs .nil) sampleSet
        [warningsAsErrorsFlag]).postrun = none ∧
    (newOcCommand [] [] sampleSubs .nil).postrun =
      some Hook.warningsAsErrorsCheck := by
  have h := reroot_hooks_absent_spec [] [] sampleSubs .nil "kubectl-set"
    sampleSet [warningsAsErrorsFlag] (by rfl)
  exact ⟨h.2.2.2.2.2.2.1, h.2.2.2.2.2.2.2.1, h.2.2.2.2.2.2.2.2.2⟩

/-- Witness for C6 at a concrete input: one unknown argument, a PATH scan
that finds nothing. -/
theorem plugin_not_found_exit_witness :
    newDefaultOcCommandDispatch sampleRoot (fun _ => none) ["oc", "kubectl"]
        ["frobnicate"] =
      .exitWithError 1 (pluginNotFoundMsg ["frobnicate"]) :=
  plugin_not_found_exit_spec sampleRoot (fun _ => none) ["oc", "kubectl"]
    ["frobnicate"] (by decide) (by decide) (by decide) (by decide) (by decide)
    (by decide)

theorem fixValidateFlags_idem (fs : List Flag) :
    fixValidateFlags (fixValidateFlags fs) = fixValidateFlags fs := by
  induction fs with
  | nil => rfl
  | cons fl rest ih =>
    by_cases h : fl.name == "validate"
    · by_cases hm : containsValidateMarker fl.usage
      · simp [fixValidateFlags, h, hm, setIgnore]
      · simp [fixValidateFlags, h, hm]
    · simp [fixValidateFlags, h, ih]

theorem map_fixValidateOne_eq_self (fs : List Flag)
    (h : ∀ g ∈ fs, g.name ≠ "validate") :
    fs.map fixValidateOne = fs := by
  induction fs with
  | nil => rfl
  | cons g rest ih =>
    rw [List.map_cons]
    have hg : fixValidateOne g = g := by
      unfold fixValidateOne
      rw [if_neg]
      rintro ⟨hv, _⟩
      exact h g (by simp) hv
    rw [hg, ih (fun x hx => h x (by simp [hx]))]

theorem fixValidateFlags_eq_map (fs : List Flag)
    (h : (fs.map Flag.name).Nodup) :
    fixValidateFlags fs = fs.map fixValidateOne := by
  induction fs with
  | nil => rfl
  | cons fl rest ih =>
    rw [List.map_cons, List.nodup_cons] at h
    obtain ⟨hnotin, hnd⟩ := h
    by_cases hv : fl.name = "validate"
    · have hrest : ∀ g ∈ rest, g.name ≠ "validate" := by
        intro g hg hgv
        apply hnotin
        rw [hv, ← hgv]
        exact List.mem_map_of_mem Flag.name hg
      have hbeq : (fl.name == "validate") = true := beq_iff_eq.mpr hv
      rw [List.map_cons]
      unfold fixValidateFlags
      rw [if_pos hbeq, map_fixValidateOne_eq_self rest hrest]
      by_cases hm : containsValidateMarker fl.usage
      · rw [if_pos hm]
        unfold fixValidateOne
        rw [if_pos ⟨hv, hm⟩]
      · rw [if_neg hm]
        unfold fixValidateOne
        rw [if_neg]
        rintro ⟨_, hm2⟩
        exact hm hm2
    · have hbeq : (fl.name == "validate") = false := beq_eq_false_iff_ne.mpr hv
      rw [List.map_cons]
      unfold fixValidateFlags
      rw [hbeq]
      simp only [Bool.false_eq_true, if_false]
      have hone : fixValidateOne fl = fl := by
        unfold fixValidateOne
        rw [if_neg]
        rintro ⟨hv2, _⟩
        exact hv hv2
      rw [hone, ih hnd]

mutual
theorem changeSharedFlagDefaults_idem (c : Cmd) :
    changeSharedFlagDefaults (changeSharedFlagDefaults c) =
      changeSharedFlagDefaults c := by
  cases c with
  | mk u s l e r pre post fs pfs subs =>
    simp [changeSharedFlagDefaults, fixValidateFlags_idem,
      changeSharedFlagDefaultsList_idem subs]
theorem changeSharedFlagDefaultsList_idem (cs : Cmds) :
    changeSharedFlagDefaultsList (changeSharedFlagDefaultsList cs) =
      changeSharedFlagDefaultsList cs := by
  cases cs with
  | nil => rfl
  | cons c cs =>
    simp [changeSharedFlagDefaultsList, changeSharedFlagDefaults_idem c,
      changeSharedFlagDefaultsList_idem cs]
end

mutual
theorem change_allNodes_pflags (c : Cmd) :
    (allNodes (changeSharedFlagDefaults c)).map Cmd.pflags =
      (allNodes c).map Cmd.pflags := by
  cases c with
  | mk u s l e r pre post fs pfs subs =>
    simp only [changeSharedFlagDefaults, allNodes, List.map_cons, Cmd.pflags,
      change_allNodesList_pflags subs]
theorem change_allNodesList_pflags (cs : Cmds) :
    (allNodesList (changeSharedFlagDefaultsList cs)).map Cmd.pflags =
      (allNodesList cs).map Cmd.pflags := by
  cases cs with
  | nil => rfl
  | cons c cs =>
    simp only [changeSharedFlagDefaultsList, allNodesList, List.map_append,
      change_allNodes_pflags c, change_allNodesList_pflags cs]
end

mutual
theorem change_allNodes_flags (c : Cmd)
    (h : ∀ n ∈ allNodes c, (n.flags.map Flag.name).Nodup) :
    (allNodes (changeSharedFlagDefaults c)).map Cmd.flags =
      (allNodes c).map (fun n => n.flags.map fixValidateOne) := by
  cases c with
  | mk u s l e r pre post fs pfs subs =>
    have hroot : (fs.map Flag.name).Nodup := by
      have := h (.mk u s l e r pre post fs pfs subs) (by simp [allNodes])
      simpa [Cmd.flags] using this
    have hsub : ∀ n ∈ allNodesList subs, (n.flags.map Flag.name).Nodup := by
      intro n hn
      exact h n (by simp [allNodes, hn])
    simp only [changeSharedFlagDefaults, allNodes, List.map_cons, Cmd.flags,
      fixValidateFlags_eq_map fs hroot, change_allNodesList_flags subs hsub]
theorem change_allNodesList_flags (cs : Cmds)
    (h : ∀ n ∈ allNodesList cs, (n.flags.map Flag.name).Nodup) :
    (allNodesList (changeSharedFlagDefaultsList cs)).map Cmd.flags =
      (allNodesList cs).map (fun n => n.flags.map fixValidateOne) := by
  cases cs with
  | nil => rfl
  | cons c cs =>
    have hc : ∀ n ∈ allNodes c, (n.flags.map Flag.name).Nodup := by
      intro n hn
      exact h n (by simp [allNodesList, hn])
    have hcs : ∀ n ∈ allNodesList cs, (n.flags.map Flag.name).Nodup := by
      intro n hn
      exact h n (by simp [allNodesList, hn])
    simp only [changeSharedFlagDefaultsList, allNodesList, List.map_append,
      change_allNodes_flags c hc, change_allNodesList_flags cs hcs]
end

theorem fixValidateOne_fixed (fl : Flag)
    (hv : fl.name = "validate")
    (hm : containsValidateMarker fl.usage = true)
    (g : Flag) (hg : fl = fixValidateOne g) :
    fl.defValue = "ignore" ∧ fl.value = "ignore" ∧ fl.changed = false := by
  by_cases hc : g.name = "validate" ∧ containsValidateMarker g.usage = true
  · rw [hg]
    unfold fixValidateOne
    rw [if_pos hc]
    exact ⟨rfl, rfl, rfl⟩
  · exfalso
    apply hc
    unfold fixValidateOne at hg
    rw [if_neg hc] at hg
    rw [← hg]
    exact ⟨hv, hm⟩

/-- C4: after running the normalization pass (once or repeatedly) over a
tree whose per-node local flag names are unique (pflag's invariant), every
node whose local flag set contains a flag named exactly "validate"
carrying the validation marker has default "ignore", value "ignore" and
changed-by-user false; re-running the pass changes nothing; persistent
(inheritable) flag sets are untouched, and each local set is exactly its
original with only the marked validate flags rewritten. -/
theorem changeSharedFlagDefaults_normalize_spec (c : Cmd)
    (hnd : ∀ n ∈ allNodes c, (n.flags.map Flag.name).Nodup) :
    (∀ n ∈ allNodes (changeSharedFlagDefaults c), ∀ fl ∈ n.flags,
        fl.name = "validate" → containsValidateMarker fl.usage = true →
        fl.defValue = "ignore" ∧ fl.value = "ignore" ∧ fl.changed = false) ∧
    changeSharedFlagDefaults (changeSharedFlagDefaults c) =
      changeSharedFlagDefaults c ∧
    (allNodes (changeSharedFlagDefaults c)).map Cmd.pflags =
      (allNodes c).map Cmd.pflags ∧
    (allNodes (changeSharedFlagDefaults c)).map Cmd.flags =
      (allNodes c).map (fun n => n.flags.map fixValidateOne) := by
  have hmap := change_allNodes_flags c hnd
  refine ⟨?_, changeSharedFlagDefaults_idem c, change_allNodes_pflags c, hmap⟩
  intro n hn fl hfl hv hm
  have hflags : n.flags ∈ (allNodes (changeSharedFlagDefaults c)).map Cmd.flags :=
    List.mem_map_of_mem Cmd.flags hn
  rw [hmap] at hflags
  rcases List.mem_map.mp hflags with ⟨m, _, hm2⟩
  rw [← hm2] at hfl
  rcases List.mem_map.mp hfl with ⟨g, _, hg⟩
  exact fixValidateOne_fixed fl hv hm g hg.symm

/-- Witness for C4 on the sample tree (whose node "get" carries a marked
validate flag): idempotence and the exact per-node flag rewriting. -/
theorem changeSharedFlagDefaults_normalize_witness :
    changeSharedFlagDefaults (changeSharedFlagDefaults sampleRoot) =
      changeSharedFlagDefaults sampleRoot ∧
    (allNodes (changeSharedFlagDefaults sampleRoot)).map Cmd.flags =
      (allNodes sampleRoot).map (fun n => n.flags.map fixValidateOne) := by
  have h := changeSharedFlagDefaults_normalize_spec sampleRoot (by decide)
  exact ⟨h.2.1, h.2.2.2⟩

end OcCli
